import Mathlib

/-!
Verification development for the mahjong hand-shape analysis engine of the
astrbot majsoul plugin (src/modules/analysis/mahjong_utils.py).

Embedding conventions:
* A hand is canonically a 34-entry tile-count array; we model it as a
  function `Counts = Nat → Nat` over kind indices 0–33 (man 0–8, pin 9–17,
  sou 18–26, honors 27–33), the indices the Python lists use.
* The external shanten calculator (`mahjong.shanten.Shanten`) and the
  external scoring calculator (`mahjong.hand_calculating.hand.HandCalculator`)
  are third-party black boxes outside the repository; the engine under
  analysis only ever calls them.  They enter the embedding as parameters
  (`sh : Counts → Int`, `calc : List Nat → Nat → ExtHandResponse`).
* Tile-text conversion (`TilesConverter.string_to_136_array` /
  `to_34_array`) is likewise external; it is modelled from the spec (§4.1),
  see the doc comments on the definitions below.
* The in-place mutate/undo discipline of the Python search loops is made
  explicit: each loop is a `foldl` threading the scratch count array through
  the state, so that the restore-after-probe property is a theorem rather
  than being baked into the model.
-/

set_option maxRecDepth 4000

namespace Majsoul

/-- Tile-count array: the Python list `tiles_34`, kind index (0–33) to
multiplicity; always 34 entries long in the engine. -/
abbrev Counts := List Nat

/-- Indexed read `tiles_34[t]`.  Every read the engine performs is in range
(the arrays have 34 entries and the loops run over `range(34)`), so the
default 0 of an out-of-range read is never exercised. -/
def getT (a : Counts) (t : Nat) : Nat := a.getD t 0

/-- One in-place increment `tiles_34[t] += 1` of the scratch array. -/
def incT (a : Counts) (t : Nat) : Counts := a.set t (getT a t + 1)

/-- One in-place decrement `tiles_34[t] -= 1` of the scratch array. -/
def decT (a : Counts) (t : Nat) : Counts := a.set t (getT a t - 1)

theorem set_getT_self (a : Counts) (t : Nat) : a.set t (getT a t) = a := by
  induction a generalizing t with
  | nil => rfl
  | cons x xs ih =>
    cases t with
    | zero => rfl
    | succ n => simpa [getT, List.set] using ih n

theorem set_of_length_le (a : Counts) (t : Nat) (v : Nat) (h : a.length ≤ t) :
    a.set t v = a := by
  induction a generalizing t with
  | nil => rfl
  | cons x xs ih =>
    cases t with
    | zero => simp at h
    | succ n => simp only [List.set]; rw [ih n (by simpa using h)]

theorem getT_set_self (a : Counts) (t : Nat) (v : Nat) (h : t < a.length) :
    getT (a.set t v) t = v := by
  simp [getT, List.getElem?_set_self h]

theorem getT_set_ne (a : Counts) (t k : Nat) (v : Nat) (h : t ≠ k) :
    getT (a.set t v) k = getT a k := by
  simp [getT, List.getElem?_set_ne h]

theorem getT_of_length_le (a : Counts) (t : Nat) (h : a.length ≤ t) :
    getT a t = 0 := by
  simp [getT, List.getElem?_eq_none h]

theorem incT_length (a : Counts) (t : Nat) : (incT a t).length = a.length := by
  simp [incT]

theorem decT_length (a : Counts) (t : Nat) : (decT a t).length = a.length := by
  simp [decT]

theorem getT_incT_self (a : Counts) (t : Nat) (h : t < a.length) :
    getT (incT a t) t = getT a t + 1 :=
  getT_set_self a t _ h

theorem getT_incT_ne (a : Counts) (t k : Nat) (h : t ≠ k) :
    getT (incT a t) k = getT a k :=
  getT_set_ne a t k _ h

theorem decT_incT (a : Counts) (t : Nat) : decT (incT a t) t = a := by
  by_cases h : t < a.length
  · simp only [decT, incT, getT_set_self a t _ h, Nat.add_sub_cancel, List.set_set]
    exact set_getT_self a t
  · push_neg at h
    rw [incT, set_of_length_le a t _ h, decT, set_of_length_le a t _ h]

theorem incT_decT (a : Counts) (t : Nat) (h : 0 < getT a t) :
    incT (decT a t) t = a := by
  have hlen : t < a.length := by
    by_contra hc
    push_neg at hc
    rw [getT_of_length_le a t hc] at h
    exact absurd h (by omega)
  simp only [incT, decT, getT_set_self a t _ hlen, List.set_set]
  have : getT a t - 1 + 1 = getT a t := by omega
  rw [this, set_getT_self a t]

/-- Total number of tiles in a count array: `sum(tiles_34)`. -/
def count_total (a : Counts) : Nat := a.sum

/-- Components of a parsed hand string: the digit substrings attached to the
four suit markers, in input order (fields `man`, `pin`, `sou`, `honors` of
the Python `HandComponents`). -/
structure HandComponents where
  man : List Char
  pin : List Char
  sou : List Char
  honors : List Char
deriving DecidableEq, Repr

/-- One character of `PaiAnalyzer.parse_hand`'s loop.  State: the components
built so far and the pending digit buffer `current_numbers`.  Digits are
buffered; a suit marker (`mMpPsS` or `zZ`) flushes the whole buffer into its
suit; every other character falls through the `if`/`elif` chain untouched. -/
def parse_step (st : HandComponents × List Char) (c : Char) :
    HandComponents × List Char :=
  let hc := st.1
  let cur := st.2
  if c.isDigit then (hc, cur ++ [c])
  else if c ∈ (['m', 'M', 'p', 'P', 's', 'S'] : List Char) then
    (if c.toLower = 'm' then { hc with man := hc.man ++ cur }
     else if c.toLower = 'p' then { hc with pin := hc.pin ++ cur }
     else { hc with sou := hc.sou ++ cur }, [])
  else if c ∈ (['z', 'Z'] : List Char) then
    ({ hc with honors := hc.honors ++ cur }, [])
  else st

/-- Embedding of `PaiAnalyzer.parse_hand`: fold `parse_step` over the input
characters starting from empty components and an empty digit buffer; a
trailing unflushed buffer is dropped, as in the source. -/
def parse_hand (hand_str : List Char) : HandComponents :=
  (hand_str.foldl parse_step (⟨[], [], [], []⟩, [])).1

/-- Rank of a digit character: '1' ↦ 0, …, '9' ↦ 8. -/
def digit_rank (c : Char) : Nat := c.toNat - 49

/-- Kind indices (0–33) of all tiles of a component set, suit-major. -/
def tile_kinds (hc : HandComponents) : List Nat :=
  hc.man.map (fun c => digit_rank c)
    ++ hc.pin.map (fun c => 9 + digit_rank c)
    ++ hc.sou.map (fun c => 18 + digit_rank c)
    ++ hc.honors.map (fun c => 27 + digit_rank c)

/-- Modelled from the spec: the external converter
`TilesConverter.string_to_136_array` (not part of this repository) which
"expands each digit to its (suit, rank) index" (§4.1); 136-format tile ids
carry the kind in `id / 4`, so each tile of kind `k` is given id `4 * k`
(the copy index inside a kind is immaterial to the engine, which only ever
divides ids by 4 or hands them to the external calculator). -/
def string_to_136_array (hc : HandComponents) : List Nat :=
  (tile_kinds hc).map (fun k => 4 * k)

/-- Modelled from the spec: the external `TilesConverter.to_34_array` — each
136-format id belongs to kind `id / 4`; the count array "increments the
corresponding counter" per tile (§4.1). -/
def to_34_array (tiles_136 : List Nat) : Counts :=
  (List.range 34).map (fun k => (tiles_136.filter (fun t => t / 4 = k)).length)

theorem to_34_array_length (tiles_136 : List Nat) :
    (to_34_array tiles_136).length = 34 := by
  simp [to_34_array]

theorem getT_to_34_array (tiles_136 : List Nat) (k : Nat) (h : k < 34) :
    getT (to_34_array tiles_136) k =
      (tiles_136.filter (fun t => t / 4 = k)).length := by
  simp [getT, to_34_array, List.getElem?_map, List.getElem?_range h]

/-- Readable tile name, as computed both in `WaitingTile.__init__` and in
`MahjongHelper.calculate_ukeire`: rank `index % 9 + 1` followed by the suit
letter `['m','p','s','z'][index // 9]`. -/
def tile_str (t : Nat) : String :=
  toString (t % 9 + 1) ++
    (if t / 9 = 0 then "m" else if t / 9 = 1 then "p"
     else if t / 9 = 2 then "s" else "z")

/-- Result of `MahjongHelper.calculate_shanten`. -/
structure ShantenResult where
  shanten : Int
  success : Bool
  error : Option String
deriving DecidableEq, Repr

/-- Embedding of `MahjongHelper.calculate_shanten` over the external shanten
oracle `sh`; the oracle is total, so the `except` branch is unreachable. -/
def calculate_shanten (sh : Counts → Int) (tiles_34 : Counts) : ShantenResult :=
  { shanten := sh tiles_34, success := true, error := none }

/-- One waiting tile, as the Python `WaitingTile` stores it (the derived
display string included). -/
structure WaitingTile where
  tile_index : Nat
  count : Nat
  tile_str : String
deriving DecidableEq, Repr

/-- Constructor of `WaitingTile`: the display string is computed from the
tile index. -/
def WaitingTile.make (tile_index count : Nat) : WaitingTile :=
  ⟨tile_index, count, Majsoul.tile_str tile_index⟩

/-- One discard option of the ukeire search (Python `UkeireOption`; the
joined `waiting_tiles_str` display string is a pure rendering of `waiting`
and is not modelled). -/
structure UkeireOption where
  tile_to_discard : String
  tile_index : Nat
  ukeire : Nat
  waiting : List WaitingTile
deriving DecidableEq, Repr

/-- Constructor of `UkeireOption` from the raw `(tile_index, count)` pairs
the search loop accumulates, as `UkeireOption.__init__` does. -/
def UkeireOption.make (tile_to_discard : String) (tile_index ukeire : Nat)
    (waiting_tiles : List (Nat × Nat)) : UkeireOption :=
  ⟨tile_to_discard, tile_index, ukeire,
    waiting_tiles.map (fun p => WaitingTile.make p.1 p.2)⟩

/-- Result of `MahjongHelper.calculate_ukeire`. -/
structure UkeireResult where
  success : Bool
  error : Option String
  current_shanten : Int
  options : List UkeireOption
deriving DecidableEq, Repr

/-- Body of the inner `for try_tile in range(len(tiles_34))` loop of
`calculate_ukeire`.  The state threads the scratch array (mutated in place
in the source) together with the accumulated `ukeire` count and
`waiting_tiles` list; each iteration increments the probed tile, consults
the shanten oracle, records an improving draw, and decrements the tile
again. -/
def try_draw (sh : Counts → Int) (current_shanten : Int) (discard_pos : Nat)
    (st : Counts × Nat × List (Nat × Nat)) (try_tile : Nat) :
    Counts × Nat × List (Nat × Nat) :=
  let a := st.1
  if 4 ≤ getT a try_tile then st
  else
    let a1 := incT a try_tile
    let new_shanten := sh a1
    let st1 :=
      if new_shanten < current_shanten then
        let original_count := getT a1 try_tile - 1
        let original_count :=
          if try_tile = discard_pos then original_count + 1 else original_count
        let remaining := 4 - original_count
        if 0 < remaining then (st.2.1 + remaining, st.2.2 ++ [(try_tile, remaining)])
        else st.2
      else st.2
    (decT a1 try_tile, st1)

/-- Body of the outer `for discard_pos in range(len(tiles_34))` loop of
`calculate_ukeire`: skip absent kinds, remove one copy, run the inner draw
probe, put the copy back, and append an option when the probe found any
improving draw. -/
def discard_step (sh : Counts → Int) (current_shanten : Int)
    (st : Counts × List UkeireOption) (discard_pos : Nat) :
    Counts × List UkeireOption :=
  let a := st.1
  if getT a discard_pos = 0 then st
  else
    let inner := (List.range 34).foldl (try_draw sh current_shanten discard_pos)
      (decT a discard_pos, 0, [])
    let a1 := incT inner.1 discard_pos
    if 0 < inner.2.1 then
      (a1, st.2 ++ [UkeireOption.make (tile_str discard_pos) discard_pos
        inner.2.1 inner.2.2])
    else (a1, st.2)

/-- Sort order of `ukeire_results.sort(key=lambda x: (-x.ukeire, x.tile_index))`:
descending total wait-count, ties by ascending tile index. -/
def ukeire_le (x y : UkeireOption) : Prop :=
  y.ukeire < x.ukeire ∨ (x.ukeire = y.ukeire ∧ x.tile_index ≤ y.tile_index)

instance : DecidableRel ukeire_le := fun x y => by
  unfold ukeire_le; exact inferInstance

instance : IsTrans UkeireOption ukeire_le :=
  ⟨by intro a b c hab hbc; unfold ukeire_le at *; omega⟩

instance : IsTotal UkeireOption ukeire_le :=
  ⟨by intro a b; unfold ukeire_le; omega⟩

/-- Embedding of `MahjongHelper.calculate_ukeire`: convert the 136-format
tiles to counts, take the current shanten, run the discard/draw double loop
on the scratch array, and sort the options (a stable sort by the key
`(-ukeire, tile_index)`, modelled by insertion sort with `ukeire_le`).  The
shanten oracle is total, so the `except` branch is unreachable. -/
def calculate_ukeire (sh : Counts → Int) (tiles_136 : List Nat) : UkeireResult :=
  let tiles_34 := to_34_array tiles_136
  let current_shanten := sh tiles_34
  let r := (List.range 34).foldl (discard_step sh current_shanten) (tiles_34, [])
  { success := true, error := none, current_shanten := current_shanten,
    options := List.insertionSort ukeire_le r.2 }

/-- Body of the 13-tile tenpai loop of `analyze_hand` (听牌分析): the guard
and the remaining-count read the saved copy `original_tiles_34`, while the
probe mutates and restores the working array. -/
def waits_step (sh : Counts → Int) (original_tiles_34 : Counts)
    (st : Counts × List WaitingTile) (try_tile : Nat) :
    Counts × List WaitingTile :=
  if 4 ≤ getT original_tiles_34 try_tile then st
  else
    let a1 := incT st.1 try_tile
    let w :=
      if (calculate_shanten sh a1).shanten = -1 then
        let remaining := 4 - getT original_tiles_34 try_tile
        if 0 < remaining then st.2 ++ [WaitingTile.make try_tile remaining]
        else st.2
      else st.2
    (decT a1 try_tile, w)

/-- The 13-tile tenpai loop over all 34 kinds; returns the final scratch
array together with the collected waiting tiles. -/
def waits_loop (sh : Counts → Int) (tiles_34 : Counts) :
    Counts × List WaitingTile :=
  (List.range 34).foldl (waits_step sh tiles_34) (tiles_34, [])

/-- Body of the 13-tile non-tenpai loop of `analyze_hand` (向听分析): track
the best resulting shanten; a strict improvement restarts the candidate
list, a tie appends to it. -/
def best_advance_step (sh : Counts → Int) (original_tiles_34 : Counts)
    (st : Counts × List WaitingTile × Int) (try_tile : Nat) :
    Counts × List WaitingTile × Int :=
  if 4 ≤ getT original_tiles_34 try_tile then st
  else
    let a1 := incT st.1 try_tile
    let new_shanten := (calculate_shanten sh a1).shanten
    let bt :=
      if new_shanten < st.2.2 then
        let remaining := 4 - getT original_tiles_34 try_tile
        ((if 0 < remaining then [WaitingTile.make try_tile remaining] else st.2.1),
          new_shanten)
      else if new_shanten = st.2.2 then
        let remaining := 4 - getT original_tiles_34 try_tile
        ((if 0 < remaining then st.2.1 ++ [WaitingTile.make try_tile remaining]
          else st.2.1), st.2.2)
      else st.2
    (decT a1 try_tile, bt)

/-- The 13-tile non-tenpai loop over all 34 kinds, starting from the hand's
current shanten as the best. -/
def best_advance_loop (sh : Counts → Int) (shanten : Int) (tiles_34 : Counts) :
    Counts × List WaitingTile × Int :=
  (List.range 34).foldl (best_advance_step sh tiles_34) (tiles_34, [], shanten)

/-- One yaku of the external calculator's response (`result.yaku` items). -/
structure ExtYaku where
  name : String
  han_closed : Int
  han_open : Int
deriving DecidableEq, Repr

/-- Response shape of the external `HandCalculator.estimate_hand_value`
(third-party, outside the repository): an error string or the scored hand.
Modelled from the spec (§4.4/§6): the evaluator returns the applicable yaku
set, han, fu and cost; "zero applicable yaku or zero han" is a non-error
response. -/
structure ExtHandResponse where
  error : Option String
  han : Int
  fu : Int
  cost : List (String × Int)
  yaku : Option (List ExtYaku)
  is_open_hand : Bool
deriving DecidableEq, Repr

/-- One translated yaku item (Python `YakuItem`; the Chinese display label,
a pure lookup in the static `YAKU_NAME_MAP` with identity fallback, is
presentation-only and not modelled). -/
structure YakuItem where
  name : String
  han : Int
deriving DecidableEq, Repr

/-- Result of `MahjongHelper.estimate_hand_value`. -/
structure HandValueResult where
  success : Bool
  error : Option String
  han : Int
  fu : Int
  cost : List (String × Int)
  yaku : List YakuItem
  is_yakuman : Bool
deriving DecidableEq, Repr

/-- The single-suit components `{win_tile_type: win_tile_value}` built for
the winning tile, as `convert_tiles(**win_tile_dict)` receives them. -/
def win_components (win_tile_type : String) (win_tile_value : List Char) :
    HandComponents :=
  if win_tile_type = "man" then ⟨win_tile_value, [], [], []⟩
  else if win_tile_type = "pin" then ⟨[], win_tile_value, [], []⟩
  else if win_tile_type = "sou" then ⟨[], [], win_tile_value, []⟩
  else if win_tile_type = "honors" then ⟨[], [], [], win_tile_value⟩
  else ⟨[], [], [], []⟩

/-- Embedding of `MahjongHelper.estimate_hand_value` over the external
calculator `calcFn`: convert the hand and the winning tile, call the
calculator, propagate its error as a failure, otherwise translate the yaku
list (closed/open han as `is_open_hand` says) and flag yakuman at han ≥ 13.
An empty winning-tile conversion reproduces the `[0]` IndexError caught by
the enclosing `except`. -/
def estimate_hand_value (calcFn : List Nat → Nat → ExtHandResponse)
    (tiles_man tiles_pin tiles_sou tiles_honors : List Char)
    (win_tile_type : String) (win_tile_value : List Char) : HandValueResult :=
  let tiles := string_to_136_array ⟨tiles_man, tiles_pin, tiles_sou, tiles_honors⟩
  match string_to_136_array (win_components win_tile_type win_tile_value) with
  | [] =>
    { success := false, error := some "list index out of range",
      han := 0, fu := 0, cost := [], yaku := [], is_yakuman := false }
  | win_tile :: _ =>
    let result := calcFn tiles win_tile
    match result.error with
    | some e =>
      { success := false, error := some e, han := 0, fu := 0, cost := [],
        yaku := [], is_yakuman := false }
    | none =>
      let yaku_items := (result.yaku.getD []).map
        (fun y => ({ name := y.name,
                     han := if result.is_open_hand then y.han_open
                            else y.han_closed } : YakuItem))
      { success := true, error := none, han := result.han, fu := result.fu,
        cost := result.cost, yaku := yaku_items,
        is_yakuman := decide (13 ≤ result.han) }

/-- The win-branch tile selection of `analyze_hand` (lines 449–456): the
first non-empty component in the order man, pin, sou, honors contributes
its final parsed character; `none` when every component is empty (there the
source raises `UnboundLocalError`). -/
def designated_win_tile (hc : HandComponents) : Option (String × List Char) :=
  if hc.man ≠ [] then hc.man.getLast?.map (fun c => ("man", [c]))
  else if hc.pin ≠ [] then hc.pin.getLast?.map (fun c => ("pin", [c]))
  else if hc.sou ≠ [] then hc.sou.getLast?.map (fun c => ("sou", [c]))
  else if hc.honors ≠ [] then hc.honors.getLast?.map (fun c => ("honors", [c]))
  else none

/-- Result object of `PaiAnalyzer.analyze_hand` (Python
`HandAnalysisResult`). -/
structure HandAnalysisResult where
  success : Bool
  error : Option String
  hand_str : List Char
  total_tiles : Nat
  hand_components : Option HandComponents
  shanten : Option ShantenResult
  hand_value : Option HandValueResult
  ukeire : Option UkeireResult
  waiting_tiles : List WaitingTile
deriving DecidableEq, Repr

/-- Embedding of `PaiAnalyzer.analyze_hand`, parametric in the external
shanten oracle and scoring calculator.  The source converts the parsed
components twice (once to 136-format tiles for the branch payloads and once
to a 34-array inside `calculate_shanten`); both external conversions realize
the same §4.1 `toCountArray` contract, so the embedding builds one count
array. -/
def analyze_hand (sh : Counts → Int) (calcFn : List Nat → Nat → ExtHandResponse)
    (hand_str : List Char) : HandAnalysisResult :=
  let hand_components := parse_hand hand_str
  let tiles_136 := string_to_136_array hand_components
  let tiles_34 := to_34_array tiles_136
  let total_tiles := count_total tiles_34
  let shanten_result := calculate_shanten sh tiles_34
  let base : HandAnalysisResult :=
    { success := true, error := none, hand_str := hand_str,
      total_tiles := total_tiles, hand_components := some hand_components,
      shanten := some shanten_result, hand_value := none, ukeire := none,
      waiting_tiles := [] }
  if total_tiles = 14 then
    if shanten_result.shanten = -1 then
      match designated_win_tile hand_components with
      | some (win_tile_type, win_tile_value) =>
        { base with hand_value := some (estimate_hand_value calcFn
            hand_components.man hand_components.pin hand_components.sou
            hand_components.honors win_tile_type win_tile_value) }
      | none =>
        { success := false, error := some "分析失败", hand_str := hand_str,
          total_tiles := 0, hand_components := none, shanten := none,
          hand_value := none, ukeire := none, waiting_tiles := [] }
    else
      { base with ukeire := some (calculate_ukeire sh tiles_136) }
  else if total_tiles = 13 then
    if shanten_result.shanten = 0 then
      { base with waiting_tiles := (waits_loop sh tiles_34).2 }
    else
      { base with waiting_tiles :=
          (best_advance_loop sh shanten_result.shanten tiles_34).2.1 }
  else
    { base with
        success := false,
        error := some ("手牌数量（" ++ toString total_tiles ++ "）不正确，应为13或14张") }

/-- Serialized shape of `HandAnalysisResult.to_dict`: each `Option` models
the presence of a key in the emitted dict (nested serialization elided; the
nested objects are carried as values).  On failure only `success` and
`error` are emitted. -/
structure HandAnalysisDict where
  success : Bool
  error : Option String
  hand_str : Option (List Char)
  total_tiles : Option Nat
  hand_components : Option (Option HandComponents)
  shanten : Option (Option ShantenResult)
  hand_value : Option (Option HandValueResult)
  ukeire : Option (Option UkeireResult)
  waiting_tiles : Option (List WaitingTile)
deriving DecidableEq, Repr

/-- Embedding of `HandAnalysisResult.to_dict`: the base class emits
`success` (and `error` when failed); the payload keys are emitted only when
`success` holds. -/
def to_dict (r : HandAnalysisResult) : HandAnalysisDict :=
  if r.success then
    { success := true, error := none, hand_str := some r.hand_str,
      total_tiles := some r.total_tiles,
      hand_components := some r.hand_components, shanten := some r.shanten,
      hand_value := some r.hand_value, ukeire := some r.ukeire,
      waiting_tiles := some r.waiting_tiles }
  else
    { success := false, error := r.error, hand_str := none,
      total_tiles := none, hand_components := none, shanten := none,
      hand_value := none, ukeire := none, waiting_tiles := none }

/-- Modelled from the spec (§4.2): the seven-pairs shanten formula
`6 − pairs + max(0, 7 − distinctKinds)`; a concrete, cheaply computable
instance of the external shanten calculator, used in witnesses. -/
def sh_chiitoi (a : Counts) : Int :=
  let pairs := ((List.range 34).filter (fun k => 2 ≤ getT a k)).length
  let kinds := ((List.range 34).filter (fun k => 1 ≤ getT a k)).length
  6 - (pairs : Int) + max 0 (7 - (kinds : Int))

/-- Constant complete-hand shanten oracle, used to drive the win branch on
concrete inputs whose true shanten is −1. -/
def sh_win : Counts → Int := fun _ => -1

/-- Concrete external scoring response used in witnesses. -/
def calc_demo : List Nat → Nat → ExtHandResponse :=
  fun _ _ =>
    { error := none, han := 1, fu := 40, cost := [("main", 1300)],
      yaku := some [{ name := "Riichi", han_closed := 1, han_open := 1 }],
      is_open_hand := false }

/-! ## Parser grammar (C9) -/

/-- Every character `parse_hand` reacts to: the four suit markers in both
cases. -/
def suit_markers : List Char := ['m', 'M', 'p', 'P', 's', 'S', 'z', 'Z']

theorem parse_step_digit (st : HandComponents × List Char) (c : Char)
    (h : c.isDigit = true) : parse_step st c = (st.1, st.2 ++ [c]) := by
  simp [parse_step, h]

theorem parse_step_other (st : HandComponents × List Char) (c : Char)
    (hd : c.isDigit = false) (hm : c ∉ suit_markers) : parse_step st c = st := by
  simp only [suit_markers, List.mem_cons, List.not_mem_nil, or_false] at hm
  push_neg at hm
  obtain ⟨h1, h2, h3, h4, h5, h6, h7, h8⟩ := hm
  simp [parse_step, hd, h1, h2, h3, h4, h5, h6, h7, h8]

theorem parse_digits_foldl (ds : List Char) (st : HandComponents × List Char)
    (h : ∀ c ∈ ds, c.isDigit = true) :
    ds.foldl parse_step st = (st.1, st.2 ++ ds) := by
  induction ds generalizing st with
  | nil => simp
  | cons c ds ih =>
    rw [List.foldl_cons, parse_step_digit st c (h c (by simp)),
      ih _ (fun x hx => h x (by simp [hx]))]
    simp

theorem parse_junk_foldl (js : List Char) (st : HandComponents × List Char)
    (h : ∀ c ∈ js, c.isDigit = false ∧ c ∉ suit_markers) :
    js.foldl parse_step st = st := by
  induction js with
  | nil => rfl
  | cons c js ih =>
    rw [List.foldl_cons, parse_step_other st c (h c (by simp)).1 (h c (by simp)).2,
      ih (fun x hx => h x (by simp [hx]))]

/-- C9: `parse_hand` implements the accumulate-then-flush grammar.  A digit
appends to the pending buffer; each suit marker (either case) flushes the
whole buffer into its suit component and clears it; any other character
leaves the state — buffer included — untouched; and consequently several
digit runs separated by ignored characters all flush to the next marker
seen. -/
theorem parse_hand_grammar :
    (∀ (st : HandComponents × List Char) (c : Char), c.isDigit = true →
      parse_step st c = (st.1, st.2 ++ [c])) ∧
    (∀ (st : HandComponents × List Char) (c : Char), c = 'm' ∨ c = 'M' →
      parse_step st c = ({ st.1 with man := st.1.man ++ st.2 }, [])) ∧
    (∀ (st : HandComponents × List Char) (c : Char), c = 'p' ∨ c = 'P' →
      parse_step st c = ({ st.1 with pin := st.1.pin ++ st.2 }, [])) ∧
    (∀ (st : HandComponents × List Char) (c : Char), c = 's' ∨ c = 'S' →
      parse_step st c = ({ st.1 with sou := st.1.sou ++ st.2 }, [])) ∧
    (∀ (st : HandComponents × List Char) (c : Char), c = 'z' ∨ c = 'Z' →
      parse_step st c = ({ st.1 with honors := st.1.honors ++ st.2 }, [])) ∧
    (∀ (st : HandComponents × List Char) (c : Char), c.isDigit = false →
      c ∉ suit_markers → parse_step st c = st) ∧
    (∀ (ds1 js ds2 : List Char) (st : HandComponents × List Char),
      (∀ c ∈ ds1, c.isDigit = true) → (∀ c ∈ ds2, c.isDigit = true) →
      (∀ c ∈ js, c.isDigit = false ∧ c ∉ suit_markers) →
      (ds1 ++ js ++ ds2 ++ ['m']).foldl parse_step st =
        ({ st.1 with man := st.1.man ++ (st.2 ++ ds1 ++ ds2) }, [])) := by
  refine ⟨parse_step_digit, ?_, ?_, ?_, ?_, parse_step_other, ?_⟩
  · rintro st c (rfl | rfl) <;> rfl
  · rintro st c (rfl | rfl) <;> rfl
  · rintro st c (rfl | rfl) <;> rfl
  · rintro st c (rfl | rfl) <;> rfl
  · intro ds1 js ds2 st h1 h2 hj
    rw [List.foldl_append, List.foldl_append, List.foldl_append,
      parse_digits_foldl ds1 st h1, parse_junk_foldl js _ hj,
      parse_digits_foldl ds2 _ (by simpa using h2)]
    simp [parse_step, List.append_assoc]

/-! ## Ukeire search characterization -/

/-- The record one inner draw probe of `calculate_ukeire` appends, read off
the loop body as a pure function of the (restored) 13-tile scratch array. -/
def draw_record (sh : Counts → Int) (current_shanten : Int) (discard_pos : Nat)
    (a : Counts) (t : Nat) : Option (Nat × Nat) :=
  if 4 ≤ getT a t then none
  else if sh (incT a t) < current_shanten then
    let original_count := getT (incT a t) t - 1
    let original_count :=
      if t = discard_pos then original_count + 1 else original_count
    let remaining := 4 - original_count
    if 0 < remaining then some (t, remaining) else none
  else none

theorem try_draw_eq (sh : Counts → Int) (s : Int) (d : Nat)
    (st : Counts × Nat × List (Nat × Nat)) (t : Nat) :
    try_draw sh s d st t =
      (st.1, match draw_record sh s d st.1 t with
        | none => st.2
        | some p => (st.2.1 + p.2, st.2.2 ++ [p])) := by
  unfold try_draw draw_record
  simp only [decT_incT]
  split
  · rfl
  · split
    · split
      · split <;> rfl
      · split <;> rfl
    · rfl

theorem try_draw_fst (sh : Counts → Int) (s : Int) (d : Nat)
    (st : Counts × Nat × List (Nat × Nat)) (t : Nat) :
    (try_draw sh s d st t).1 = st.1 := by
  rw [try_draw_eq]

theorem try_draw_foldl (sh : Counts → Int) (s : Int) (d : Nat) (ts : List Nat)
    (a : Counts) (u : Nat) (w : List (Nat × Nat)) :
    ts.foldl (try_draw sh s d) (a, u, w) =
      (a, u + ((ts.filterMap (draw_record sh s d a)).map Prod.snd).sum,
        w ++ ts.filterMap (draw_record sh s d a)) := by
  induction ts generalizing u w with
  | nil => simp
  | cons t ts ih =>
    rw [List.foldl_cons, try_draw_eq]
    cases hrec : draw_record sh s d a t with
    | none => simp only [hrec]; rw [ih]; simp [hrec]
    | some p =>
      simp only [hrec]
      rw [ih]
      simp [hrec, List.append_assoc, Nat.add_assoc]

/-- The option one outer discard probe of `calculate_ukeire` appends, as a
pure function of the (restored) 14-tile scratch array. -/
def discard_option (sh : Counts → Int) (current_shanten : Int) (a : Counts)
    (d : Nat) : Option UkeireOption :=
  if getT a d = 0 then none
  else
    let recs := (List.range 34).filterMap (draw_record sh current_shanten d (decT a d))
    if 0 < (recs.map Prod.snd).sum then
      some (UkeireOption.make (tile_str d) d ((recs.map Prod.snd).sum) recs)
    else none

theorem discard_step_eq (sh : Counts → Int) (s : Int)
    (st : Counts × List UkeireOption) (d : Nat) :
    discard_step sh s st d = (st.1, st.2 ++ (discard_option sh s st.1 d).toList) := by
  unfold discard_step discard_option
  by_cases h0 : getT st.1 d = 0
  · simp [h0]
  · simp only [h0, if_neg, ite_false]
    rw [try_draw_foldl, incT_decT st.1 d (Nat.pos_of_ne_zero h0)]
    simp only [Nat.zero_add, List.nil_append]
    split
    · rfl
    · simp

theorem discard_foldl (sh : Counts → Int) (s : Int) (ds : List Nat) (a : Counts)
    (acc : List UkeireOption) :
    ds.foldl (discard_step sh s) (a, acc) =
      (a, acc ++ ds.filterMap (discard_option sh s a)) := by
  induction ds generalizing acc with
  | nil => simp
  | cons d ds ih =>
    rw [List.foldl_cons, discard_step_eq]
    cases hrec : discard_option sh s a d with
    | none => simp only [hrec, Option.toList]; rw [ih]; simp [hrec]
    | some o =>
      simp only [hrec, Option.toList]
      rw [ih]
      simp [hrec, List.append_assoc]

theorem calculate_ukeire_options (sh : Counts → Int) (tiles_136 : List Nat) :
    (calculate_ukeire sh tiles_136).options =
      List.insertionSort ukeire_le
        ((List.range 34).filterMap
          (discard_option sh (sh (to_34_array tiles_136)) (to_34_array tiles_136))) := by
  simp only [calculate_ukeire, discard_foldl, List.nil_append]

theorem draw_record_eq_some (sh : Counts → Int) (s : Int) (d : Nat) (a : Counts)
    (t : Nat) (p : Nat × Nat) (hlen : t < a.length)
    (h : draw_record sh s d a t = some p) :
    p.1 = t ∧ getT a t < 4 ∧ sh (incT a t) < s ∧ (t ≠ d → p.2 = 4 - getT a t) := by
  unfold draw_record at h
  by_cases h4 : 4 ≤ getT a t
  · simp [h4] at h
  · simp only [h4, ite_false] at h
    by_cases himp : sh (incT a t) < s
    · simp only [himp, ite_true, getT_incT_self a t hlen, Nat.add_sub_cancel] at h
      by_cases htd : t = d
      · subst htd
        simp only [ite_true] at h
        split at h
        · exact ⟨(Option.some_inj.mp h).symm ▸ rfl, by omega, himp, fun hc => absurd rfl hc⟩
        · exact absurd h (by simp)
      · simp only [htd, ite_false] at h
        split at h
        · refine ⟨(Option.some_inj.mp h).symm ▸ rfl, by omega, himp, fun _ => ?_⟩
          rw [← Option.some_inj.mp h]
        · exact absurd h (by simp)
    · simp [himp] at h

theorem draw_record_discard_none (sh : Counts → Int) (a : Counts) (d : Nat)
    (hd : 0 < getT a d) :
    draw_record sh (sh a) d (decT a d) d = none := by
  unfold draw_record
  by_cases h4 : 4 ≤ getT (decT a d) d
  · simp [h4]
  · simp [h4, incT_decT a d hd]

theorem mem_ukeire_recs (sh : Counts → Int) (a : Counts) (hlen : a.length = 34)
    (d : Nat) (hd : 0 < getT a d) (p : Nat × Nat)
    (hp : p ∈ (List.range 34).filterMap (draw_record sh (sh a) d (decT a d))) :
    p.1 ≠ d ∧ p.1 < 34 ∧ sh (incT (decT a d) p.1) < sh a ∧
      p.2 = 4 - getT (decT a d) p.1 := by
  rw [List.mem_filterMap] at hp
  obtain ⟨t, ht, hrec⟩ := hp
  rw [List.mem_range] at ht
  have hlt : t < (decT a d).length := by rw [decT_length, hlen]; exact ht
  obtain ⟨hp1, hlt4, himp, hne⟩ :=
    draw_record_eq_some sh (sh a) d (decT a d) t p hlt hrec
  have htd : t ≠ d := by
    intro hc
    subst hc
    rw [draw_record_discard_none sh a t hd] at hrec
    exact Option.noConfusion hrec
  exact ⟨hp1 ▸ htd, hp1 ▸ ht, hp1 ▸ himp, hp1 ▸ hne htd⟩

theorem discard_option_eq_some (sh : Counts → Int) (s : Int) (a : Counts)
    (d : Nat) (opt : UkeireOption) (h : discard_option sh s a d = some opt) :
    opt.tile_index = d ∧ 0 < getT a d ∧
      opt.waiting = ((List.range 34).filterMap (draw_record sh s d (decT a d))).map
        (fun p => WaitingTile.make p.1 p.2) ∧
      (List.range 34).filterMap (draw_record sh s d (decT a d)) ≠ [] := by
  unfold discard_option at h
  by_cases h0 : getT a d = 0
  · simp [h0] at h
  · simp only [h0, ite_false] at h
    split at h
    · rename_i hpos
      obtain rfl := Option.some_inj.mp h.symm
      refine ⟨rfl, Nat.pos_of_ne_zero h0, rfl, ?_⟩
      intro hnil
      rw [hnil] at hpos
      simp at hpos
    · exact absurd h (by simp)

/-- C1: on a 14-tile hand at shanten ≥ 0, every discard option reported by
`calculate_ukeire` has a non-empty wait list all of whose draws strictly
reduce shanten on the simulated 13-tile hand; each wait's remaining supply
is 4 minus the copies visible in that 13-tile hand; and the option list is
pairwise ordered by descending total wait-count with ties broken by strictly
ascending tile index. -/
theorem ukeire_options_spec (sh : Counts → Int) (tiles_136 : List Nat)
    (h14 : count_total (to_34_array tiles_136) = 14)
    (hsh : 0 ≤ sh (to_34_array tiles_136)) :
    (∀ opt ∈ (calculate_ukeire sh tiles_136).options,
      opt.waiting ≠ [] ∧
        ∀ w ∈ opt.waiting,
          sh (incT (decT (to_34_array tiles_136) opt.tile_index) w.tile_index) <
              sh (to_34_array tiles_136) ∧
            w.count = 4 - getT (decT (to_34_array tiles_136) opt.tile_index) w.tile_index) ∧
    List.Pairwise
      (fun x y : UkeireOption =>
        y.ukeire < x.ukeire ∨ x.ukeire = y.ukeire ∧ x.tile_index < y.tile_index)
      (calculate_ukeire sh tiles_136).options := by
  have hlen := to_34_array_length tiles_136
  constructor
  · intro opt hopt
    rw [calculate_ukeire_options] at hopt
    rw [(List.perm_insertionSort ukeire_le _).mem_iff, List.mem_filterMap] at hopt
    obtain ⟨d, hd, hopt_eq⟩ := hopt
    obtain ⟨hidx, hpos, hwait, hne⟩ := discard_option_eq_some _ _ _ _ _ hopt_eq
    constructor
    · rw [hwait]
      intro hnil
      exact hne (List.map_eq_nil_iff.mp hnil)
    · intro w hw
      rw [hwait, List.mem_map] at hw
      obtain ⟨p, hp, rfl⟩ := hw
      obtain ⟨hpd, hp34, himp, hcnt⟩ :=
        mem_ukeire_recs sh (to_34_array tiles_136) hlen d hpos p hp
      exact ⟨by simpa [WaitingTile.make, hidx] using himp,
        by simpa [WaitingTile.make, hidx] using hcnt⟩
  · rw [calculate_ukeire_options]
    have hsorted := List.sorted_insertionSort ukeire_le
      ((List.range 34).filterMap
        (discard_option sh (sh (to_34_array tiles_136)) (to_34_array tiles_136)))
    have hbase : List.Pairwise
        (fun o1 o2 : UkeireOption => o1.tile_index ≠ o2.tile_index)
        ((List.range 34).filterMap
          (discard_option sh (sh (to_34_array tiles_136)) (to_34_array tiles_136))) := by
      refine List.pairwise_filterMap.mpr ?_
      refine (List.pairwise_lt_range 34).imp ?_
      intro d1 d2 hlt o1 ho1 o2 ho2
      rw [Option.mem_def] at ho1 ho2
      rw [(discard_option_eq_some _ _ _ _ _ ho1).1,
        (discard_option_eq_some _ _ _ _ _ ho2).1]
      omega
    have hperm := List.perm_insertionSort ukeire_le
      ((List.range 34).filterMap
        (discard_option sh (sh (to_34_array tiles_136)) (to_34_array tiles_136)))
    have hsortne := (hperm.pairwise_iff (fun h => Ne.symm h)).mpr hbase
    refine (List.Pairwise.and hsorted hsortne).imp ?_
    intro x y hxy
    obtain ⟨h1, h2⟩ := hxy
    unfold ukeire_le at h1
    omega

/-- C10: a reported discard option never lists the discarded kind itself as
a wait — putting the discarded tile back reproduces the 14-tile array, whose
shanten is not a strict improvement, so the adjusted remaining-count branch
for `try_tile == discard_pos` can never record a wait. -/
theorem ukeire_wait_ne_discard (sh : Counts → Int) (tiles_136 : List Nat) :
    ∀ opt ∈ (calculate_ukeire sh tiles_136).options, ∀ w ∈ opt.waiting,
      w.tile_index ≠ opt.tile_index := by
  intro opt hopt w hw
  rw [calculate_ukeire_options] at hopt
  rw [(List.perm_insertionSort ukeire_le _).mem_iff, List.mem_filterMap] at hopt
  obtain ⟨d, hd, hopt_eq⟩ := hopt
  obtain ⟨hidx, hpos, hwait, hne⟩ := discard_option_eq_some _ _ _ _ _ hopt_eq
  rw [hwait, List.mem_map] at hw
  obtain ⟨p, hp, rfl⟩ := hw
  obtain ⟨hpd, hp34, himp, hcnt⟩ :=
    mem_ukeire_recs sh (to_34_array tiles_136) (to_34_array_length tiles_136) d hpos p hp
  simpa [WaitingTile.make, hidx] using hpd

theorem foldl_fst_pres {γ : Type} {β : Type} (f : Counts × γ → β → Counts × γ)
    (hf : ∀ st b, (f st b).1 = st.1) (l : List β) (st : Counts × γ) :
    (l.foldl f st).1 = st.1 := by
  induction l generalizing st with
  | nil => rfl
  | cons b l ih => rw [List.foldl_cons, ih (f st b), hf st b]

theorem discard_step_fst (sh : Counts → Int) (s : Int)
    (st : Counts × List UkeireOption) (d : Nat) :
    (discard_step sh s st d).1 = st.1 := by
  rw [discard_step_eq]

theorem waits_step_fst (sh : Counts → Int) (orig : Counts)
    (st : Counts × List WaitingTile) (t : Nat) :
    (waits_step sh orig st t).1 = st.1 := by
  unfold waits_step
  split
  · rfl
  · exact decT_incT st.1 t

theorem best_advance_step_fst (sh : Counts → Int) (orig : Counts)
    (st : Counts × List WaitingTile × Int) (t : Nat) :
    (best_advance_step sh orig st t).1 = st.1 := by
  unfold best_advance_step
  split
  · rfl
  · exact decT_incT st.1 t

/-- C5: every probing search undoes its mutation — each inner draw probe,
each outer discard probe, each tenpai-wait probe and each best-advance probe
returns the scratch count array exactly as it found it, and hence each of
the four loops returns with the scratch array equal to the original counts. -/
theorem search_restores_scratch :
    (∀ (sh : Counts → Int) (s : Int) (d : Nat)
        (st : Counts × Nat × List (Nat × Nat)) (t : Nat),
      (try_draw sh s d st t).1 = st.1) ∧
    (∀ (sh : Counts → Int) (s : Int) (d : Nat) (ts : List Nat)
        (a : Counts) (u : Nat) (w : List (Nat × Nat)),
      (ts.foldl (try_draw sh s d) (a, u, w)).1 = a) ∧
    (∀ (sh : Counts → Int) (s : Int) (st : Counts × List UkeireOption) (d : Nat),
      (discard_step sh s st d).1 = st.1) ∧
    (∀ (sh : Counts → Int) (s : Int) (ds : List Nat) (a : Counts)
        (opts : List UkeireOption),
      (ds.foldl (discard_step sh s) (a, opts)).1 = a) ∧
    (∀ (sh : Counts → Int) (orig : Counts) (st : Counts × List WaitingTile) (t : Nat),
      (waits_step sh orig st t).1 = st.1) ∧
    (∀ (sh : Counts → Int) (a : Counts), (waits_loop sh a).1 = a) ∧
    (∀ (sh : Counts → Int) (orig : Counts)
        (st : Counts × List WaitingTile × Int) (t : Nat),
      (best_advance_step sh orig st t).1 = st.1) ∧
    (∀ (sh : Counts → Int) (s : Int) (a : Counts), (best_advance_loop sh s a).1 = a) := by
  refine ⟨try_draw_fst, ?_, discard_step_fst, ?_, waits_step_fst, ?_,
    best_advance_step_fst, ?_⟩
  · intro sh s d ts a u w
    exact foldl_fst_pres (try_draw sh s d) (try_draw_fst sh s d) ts (a, u, w)
  · intro sh s ds a opts
    exact foldl_fst_pres (discard_step sh s) (discard_step_fst sh s) ds (a, opts)
  · intro sh a
    exact foldl_fst_pres (waits_step sh a) (waits_step_fst sh a) (List.range 34) (a, [])
  · intro sh s a
    exact foldl_fst_pres (best_advance_step sh a) (best_advance_step_fst sh a)
      (List.range 34) (a, [], s)

/-! ## 13-tile tenpai analysis characterization -/

/-- The waiting tile one tenpai probe of the 13-tile branch of
`analyze_hand` appends, as a pure function of the (restored) array. -/
def waits_record (sh : Counts → Int) (original_tiles_34 : Counts) (t : Nat) :
    Option WaitingTile :=
  if 4 ≤ getT original_tiles_34 t then none
  else if (calculate_shanten sh (incT original_tiles_34 t)).shanten = -1 then
    let remaining := 4 - getT original_tiles_34 t
    if 0 < remaining then some (WaitingTile.make t remaining) else none
  else none

theorem waits_step_eq (sh : Counts → Int) (orig : Counts) (w : List WaitingTile)
    (t : Nat) :
    waits_step sh orig (orig, w) t = (orig, w ++ (waits_record sh orig t).toList) := by
  unfold waits_step waits_record
  simp only [decT_incT]
  split
  · simp
  · split
    · split <;> simp
    · simp

theorem waits_foldl (sh : Counts → Int) (orig : Counts) (ts : List Nat)
    (w : List WaitingTile) :
    ts.foldl (waits_step sh orig) (orig, w) =
      (orig, w ++ ts.filterMap (waits_record sh orig)) := by
  induction ts generalizing w with
  | nil => simp
  | cons t ts ih =>
    rw [List.foldl_cons, waits_step_eq]
    cases hrec : waits_record sh orig t with
    | none => simp only [hrec, Option.toList]; rw [ih]; simp [hrec]
    | some v =>
      simp only [hrec, Option.toList]
      rw [ih]
      simp [hrec, List.append_assoc]

theorem waits_loop_eq (sh : Counts → Int) (a : Counts) :
    waits_loop sh a = (a, (List.range 34).filterMap (waits_record sh a)) := by
  unfold waits_loop
  rw [waits_foldl]
  simp

theorem waits_record_some_iff (sh : Counts → Int) (a : Counts) (t : Nat)
    (w : WaitingTile) :
    waits_record sh a t = some w ↔
      getT a t < 4 ∧ sh (incT a t) = -1 ∧ w = WaitingTile.make t (4 - getT a t) := by
  unfold waits_record calculate_shanten
  by_cases h4 : 4 ≤ getT a t
  · simp only [h4, ite_true]
    constructor
    · intro h; exact absurd h (by simp)
    · intro h; omega
  · simp only [h4, ite_false]
    by_cases himp : sh (incT a t) = -1
    · have hrem : 0 < 4 - getT a t := by omega
      simp only [himp, ite_true, hrem]
      constructor
      · intro h
        exact ⟨by omega, trivial, (Option.some_inj.mp h).symm⟩
      · rintro ⟨h1, -, rfl⟩
        rfl
    · simp only [himp, ite_false]
      constructor
      · intro h; exact absurd h (by simp)
      · rintro ⟨h1, h2, h3⟩; exact h2.elim

theorem analyze_hand_tenpai (sh : Counts → Int)
    (calcFn : List Nat → Nat → ExtHandResponse) (s_in : List Char)
    (h13 : count_total (to_34_array (string_to_136_array (parse_hand s_in))) = 13)
    (h0 : sh (to_34_array (string_to_136_array (parse_hand s_in))) = 0) :
    (analyze_hand sh calcFn s_in).waiting_tiles =
      (List.range 34).filterMap
        (waits_record sh (to_34_array (string_to_136_array (parse_hand s_in)))) := by
  simp only [analyze_hand, calculate_shanten]
  rw [h13, h0]
  simp [waits_loop_eq]

/-- C2: on a 13-tile hand at shanten 0, the waiting-tiles list of
`analyze_hand` holds exactly the kinds with count below 4 whose addition
brings shanten to −1, each carrying remaining supply 4 minus its count in
the 13-tile hand (and the derived display string). -/
theorem analyze_hand_waits_spec (sh : Counts → Int)
    (calcFn : List Nat → Nat → ExtHandResponse) (s_in : List Char)
    (h13 : count_total (to_34_array (string_to_136_array (parse_hand s_in))) = 13)
    (h0 : sh (to_34_array (string_to_136_array (parse_hand s_in))) = 0)
    (t c : Nat) (str : String) :
    (⟨t, c, str⟩ : WaitingTile) ∈ (analyze_hand sh calcFn s_in).waiting_tiles ↔
      t < 34 ∧
      getT (to_34_array (string_to_136_array (parse_hand s_in))) t < 4 ∧
      sh (incT (to_34_array (string_to_136_array (parse_hand s_in))) t) = -1 ∧
      c = 4 - getT (to_34_array (string_to_136_array (parse_hand s_in))) t ∧
      str = tile_str t := by
  rw [analyze_hand_tenpai sh calcFn s_in h13 h0, List.mem_filterMap]
  constructor
  · rintro ⟨u, hu, hrec⟩
    rw [List.mem_range] at hu
    obtain ⟨h4, himp, heq⟩ := (waits_record_some_iff sh _ u _).mp hrec
    rw [WaitingTile.make] at heq
    obtain ⟨rfl, rfl, rfl⟩ := WaitingTile.mk.injEq .. ▸ heq
    exact ⟨hu, h4, himp, rfl, rfl⟩
  · rintro ⟨ht34, h4, himp, rfl, rfl⟩
    exact ⟨t, List.mem_range.mpr ht34,
      (waits_record_some_iff sh _ t _).mpr ⟨h4, himp, rfl⟩⟩

/-! ## 13-tile non-tenpai (best advance) characterization -/

/-- The running best resulting shanten of the best-advance loop: fold `min`
over the addable probes, starting from the hand's current shanten. -/
def best_shanten_val (sh : Counts → Int) (orig : Counts) :
    List Nat → Int → Int
  | [], bs => bs
  | t :: ts, bs =>
    if 4 ≤ getT orig t then best_shanten_val sh orig ts bs
    else best_shanten_val sh orig ts (min bs (sh (incT orig t)))

/-- The addable kinds whose probe achieves shanten `m`, with their waiting
records. -/
def best_achievers (sh : Counts → Int) (orig : Counts) (m : Int)
    (ts : List Nat) : List WaitingTile :=
  ts.filterMap (fun t =>
    if 4 ≤ getT orig t then none
    else if sh (incT orig t) = m then
      some (WaitingTile.make t (4 - getT orig t))
    else none)

theorem bsv_le_init (sh : Counts → Int) (orig : Counts) (ts : List Nat)
    (bs : Int) : best_shanten_val sh orig ts bs ≤ bs := by
  induction ts generalizing bs with
  | nil => simp [best_shanten_val]
  | cons t ts ih =>
    simp only [best_shanten_val]
    split
    · exact ih bs
    · exact le_trans (ih _) (min_le_left _ _)

theorem bsv_le_elem (sh : Counts → Int) (orig : Counts) (ts : List Nat) :
    ∀ (bs : Int) (t : Nat), t ∈ ts → ¬ 4 ≤ getT orig t →
      best_shanten_val sh orig ts bs ≤ sh (incT orig t) := by
  induction ts with
  | nil => intro bs t ht; cases ht
  | cons u ts ih =>
    intro bs t ht hg
    simp only [best_shanten_val]
    rcases List.mem_cons.mp ht with rfl | htail
    · rw [if_neg hg]
      exact le_trans (bsv_le_init sh orig ts _) (min_le_right _ _)
    · split
      · exact ih bs t htail hg
      · exact ih _ t htail hg

theorem bsv_achieved (sh : Counts → Int) (orig : Counts) (ts : List Nat) :
    ∀ bs : Int,
      best_shanten_val sh orig ts bs = bs ∨
        ∃ t ∈ ts, ¬ 4 ≤ getT orig t ∧
          sh (incT orig t) = best_shanten_val sh orig ts bs := by
  induction ts with
  | nil => intro bs; left; rfl
  | cons u ts ih =>
    intro bs
    simp only [best_shanten_val]
    split
    · rcases ih bs with h | ⟨t, ht, hg, he⟩
      · left; exact h
      · right; exact ⟨t, List.mem_cons_of_mem u ht, hg, he⟩
    · rename_i hg
      rcases ih (min bs (sh (incT orig u))) with h | ⟨t, ht, hg2, he⟩
      · rcases min_choice bs (sh (incT orig u)) with hm | hm
        · left; rw [h, hm]
        · right; exact ⟨u, List.mem_cons_self u ts, hg, by rw [h, hm]⟩
      · right; exact ⟨t, List.mem_cons_of_mem u ht, hg2, he⟩

theorem best_advance_fold_spec (sh : Counts → Int) (orig : Counts)
    (ts : List Nat) :
    ∀ (bt : List WaitingTile) (bs : Int),
      ts.foldl (best_advance_step sh orig) (orig, bt, bs) =
        (orig,
          (if best_shanten_val sh orig ts bs = bs then bt else []) ++
            best_achievers sh orig (best_shanten_val sh orig ts bs) ts,
          best_shanten_val sh orig ts bs) := by
  induction ts with
  | nil => intro bt bs; simp [best_shanten_val, best_achievers]
  | cons t ts ih =>
    intro bt bs
    rw [List.foldl_cons]
    by_cases hguard : 4 ≤ getT orig t
    · have hstep : best_advance_step sh orig (orig, bt, bs) t = (orig, bt, bs) := by
        unfold best_advance_step
        simp [hguard]
      rw [hstep, ih bt bs]
      simp only [best_shanten_val, hguard, ite_true, best_achievers,
        List.filterMap_cons]
    · have hrem : 0 < 4 - getT orig t := by omega
      by_cases hv : sh (incT orig t) < bs
      · have hstep : best_advance_step sh orig (orig, bt, bs) t =
            (orig, [WaitingTile.make t (4 - getT orig t)], sh (incT orig t)) := by
          unfold best_advance_step calculate_shanten
          simp [hguard, hv, hrem, decT_incT]
        rw [hstep, ih _ _]
        have hmin : min bs (sh (incT orig t)) = sh (incT orig t) :=
          min_eq_right (le_of_lt hv)
        have hbsv : best_shanten_val sh orig (t :: ts) bs =
            best_shanten_val sh orig ts (sh (incT orig t)) := by
          simp only [best_shanten_val, hguard, ite_false, hmin]
        rw [hbsv]
        have hle := bsv_le_init sh orig ts (sh (incT orig t))
        have hmne : best_shanten_val sh orig ts (sh (incT orig t)) ≠ bs := by omega
        rw [if_neg hmne]
        simp only [best_achievers, List.filterMap_cons, hguard, ite_false]
        by_cases hvm : sh (incT orig t) = best_shanten_val sh orig ts (sh (incT orig t))
        · rw [if_pos hvm.symm, if_pos hvm]
          simp [best_achievers]
        · rw [if_neg (fun hc => hvm hc.symm), if_neg hvm]
      · by_cases hv2 : sh (incT orig t) = bs
        · have hstep : best_advance_step sh orig (orig, bt, bs) t =
              (orig, bt ++ [WaitingTile.make t (4 - getT orig t)], bs) := by
            unfold best_advance_step calculate_shanten
            simp [hguard, hv, hv2, hrem, decT_incT]
          rw [hstep, ih _ _]
          have hmin : min bs (sh (incT orig t)) = bs := by
            rw [hv2]; exact min_self bs
          have hbsv : best_shanten_val sh orig (t :: ts) bs =
              best_shanten_val sh orig ts bs := by
            simp only [best_shanten_val, hguard, ite_false, hmin]
          rw [hbsv]
          simp only [best_achievers, List.filterMap_cons, hguard, ite_false]
          by_cases hmb : best_shanten_val sh orig ts bs = bs
          · rw [if_pos hmb, if_pos hmb, if_pos (by rw [hv2, hmb])]
            simp [best_achievers, List.append_assoc]
          · rw [if_neg hmb, if_neg hmb, if_neg (by rw [hv2]; exact fun hc => hmb hc.symm)]
        · have hstep : best_advance_step sh orig (orig, bt, bs) t = (orig, bt, bs) := by
            unfold best_advance_step calculate_shanten
            simp [hguard, hv, hv2, decT_incT]
          rw [hstep, ih bt bs]
          have hgt : bs < sh (incT orig t) := by
            rcases lt_or_ge bs (sh (incT orig t)) with h | h
            · exact h
            · rcases eq_or_lt_of_le h with h' | h'
              · exact absurd h' hv2
              · exact absurd h' hv
          have hmin : min bs (sh (incT orig t)) = bs := min_eq_left (le_of_lt hgt)
          have hbsv : best_shanten_val sh orig (t :: ts) bs =
              best_shanten_val sh orig ts bs := by
            simp only [best_shanten_val, hguard, ite_false, hmin]
          rw [hbsv]
          have hle := bsv_le_init sh orig ts bs
          have hne : ¬ sh (incT orig t) = best_shanten_val sh orig ts bs := by omega
          simp only [best_achievers, List.filterMap_cons, hguard, ite_false, hne]

theorem best_advance_loop_eq (sh : Counts → Int) (s : Int) (a : Counts) :
    best_advance_loop sh s a =
      (a, best_achievers sh a (best_shanten_val sh a (List.range 34) s) (List.range 34),
        best_shanten_val sh a (List.range 34) s) := by
  unfold best_advance_loop
  rw [best_advance_fold_spec]
  simp

/-- The minimum resulting shanten over all addable probes, as the
best-advance loop tracks it starting from the hand's current shanten. -/
def best_new_shanten (sh : Counts → Int) (a : Counts) : Int :=
  best_shanten_val sh a (List.range 34) (sh a)

theorem getT_eq_getElem (a : Counts) (i : Nat) (h : i < a.length) :
    getT a i = a[i] := by
  simp [getT, List.getElem?_eq_getElem h]

theorem exists_addable (a : Counts) (hlen : a.length = 34)
    (hsum : count_total a = 13) : ∃ t ∈ List.range 34, getT a t < 4 := by
  by_contra hc
  push_neg at hc
  have hall : ∀ x ∈ a, 4 ≤ x := by
    intro x hx
    obtain ⟨i, hi, rfl⟩ := List.mem_iff_getElem.mp hx
    have h4 := hc i (List.mem_range.mpr (by omega))
    rw [getT_eq_getElem a i hi] at h4
    omega
  have hge := List.card_nsmul_le_sum a 4 hall
  rw [hlen] at hge
  rw [count_total] at hsum
  simp only [smul_eq_mul] at hge
  omega

theorem analyze_hand_advance (sh : Counts → Int)
    (calcFn : List Nat → Nat → ExtHandResponse) (s_in : List Char)
    (h13 : count_total (to_34_array (string_to_136_array (parse_hand s_in))) = 13)
    (hpos : 0 < sh (to_34_array (string_to_136_array (parse_hand s_in)))) :
    (analyze_hand sh calcFn s_in).waiting_tiles =
      best_achievers sh (to_34_array (string_to_136_array (parse_hand s_in)))
        (best_new_shanten sh (to_34_array (string_to_136_array (parse_hand s_in))))
        (List.range 34) := by
  simp only [analyze_hand, calculate_shanten]
  rw [h13]
  have hne : ¬ sh (to_34_array (string_to_136_array (parse_hand s_in))) = 0 := by
    omega
  simp [hne, best_advance_loop_eq, best_new_shanten]

theorem mem_best_achievers (sh : Counts → Int) (orig : Counts) (m : Int)
    (t c : Nat) (str : String) :
    (⟨t, c, str⟩ : WaitingTile) ∈ best_achievers sh orig m (List.range 34) ↔
      t < 34 ∧ getT orig t < 4 ∧ sh (incT orig t) = m ∧
        c = 4 - getT orig t ∧ str = tile_str t := by
  unfold best_achievers
  rw [List.mem_filterMap]
  constructor
  · rintro ⟨u, hu, hrec⟩
    rw [List.mem_range] at hu
    by_cases hg : 4 ≤ getT orig u
    · simp [hg] at hrec
    · by_cases hm : sh (incT orig u) = m
      · simp only [hg, ite_false, hm, ite_true] at hrec
        have heq := Option.some_inj.mp hrec
        rw [WaitingTile.make] at heq
        obtain ⟨rfl, rfl, rfl⟩ := WaitingTile.mk.injEq .. ▸ heq
        exact ⟨hu, by omega, hm, rfl, rfl⟩
      · simp [hg, hm] at hrec
  · rintro ⟨h34, h4, hm, rfl, rfl⟩
    refine ⟨t, List.mem_range.mpr h34, ?_⟩
    rw [if_neg (by omega), if_pos hm]
    rfl

theorem mem_best_achievers_shanten (sh : Counts → Int) (orig : Counts) (m : Int)
    (w : WaitingTile) (hw : w ∈ best_achievers sh orig m (List.range 34)) :
    sh (incT orig w.tile_index) = m := by
  unfold best_achievers at hw
  rw [List.mem_filterMap] at hw
  obtain ⟨u, hu, hrec⟩ := hw
  by_cases hg : 4 ≤ getT orig u
  · simp [hg] at hrec
  · by_cases hm : sh (incT orig u) = m
    · simp only [hg, ite_false, hm, ite_true] at hrec
      obtain rfl := Option.some_inj.mp hrec
      simpa [WaitingTile.make] using hm
    · simp [hg, hm] at hrec

/-- C3: on a 13-tile hand at shanten > 0 (with a shanten oracle that is
monotone under adding a tile, as the real calculator is), the best-advance
list of `analyze_hand` holds exactly the addable kinds achieving the minimum
resulting shanten over all addable kinds; that minimum is attained; and when
the hand sits at shanten 1, the oracle never jumps below 0 on one added
tile, and some addable kind reaches shanten 0, every returned kind reaches
shanten 0. -/
theorem analyze_hand_best_advance_spec (sh : Counts → Int)
    (calcFn : List Nat → Nat → ExtHandResponse) (s_in : List Char)
    (h13 : count_total (to_34_array (string_to_136_array (parse_hand s_in))) = 13)
    (hpos : 0 < sh (to_34_array (string_to_136_array (parse_hand s_in))))
    (hmono : ∀ t ∈ List.range 34,
      getT (to_34_array (string_to_136_array (parse_hand s_in))) t < 4 →
      sh (incT (to_34_array (string_to_136_array (parse_hand s_in))) t) ≤
        sh (to_34_array (string_to_136_array (parse_hand s_in)))) :
    (∀ (t c : Nat) (str : String),
      (⟨t, c, str⟩ : WaitingTile) ∈ (analyze_hand sh calcFn s_in).waiting_tiles ↔
        t < 34 ∧
        getT (to_34_array (string_to_136_array (parse_hand s_in))) t < 4 ∧
        sh (incT (to_34_array (string_to_136_array (parse_hand s_in))) t) =
          best_new_shanten sh (to_34_array (string_to_136_array (parse_hand s_in))) ∧
        c = 4 - getT (to_34_array (string_to_136_array (parse_hand s_in))) t ∧
        str = tile_str t) ∧
    (∀ t ∈ List.range 34,
      getT (to_34_array (string_to_136_array (parse_hand s_in))) t < 4 →
      best_new_shanten sh (to_34_array (string_to_136_array (parse_hand s_in))) ≤
        sh (incT (to_34_array (string_to_136_array (parse_hand s_in))) t)) ∧
    (∃ t ∈ List.range 34,
      getT (to_34_array (string_to_136_array (parse_hand s_in))) t < 4 ∧
      sh (incT (to_34_array (string_to_136_array (parse_hand s_in))) t) =
        best_new_shanten sh (to_34_array (string_to_136_array (parse_hand s_in)))) ∧
    (sh (to_34_array (string_to_136_array (parse_hand s_in))) = 1 →
      (∀ t ∈ List.range 34,
        getT (to_34_array (string_to_136_array (parse_hand s_in))) t < 4 →
        0 ≤ sh (incT (to_34_array (string_to_136_array (parse_hand s_in))) t)) →
      (∃ t0 ∈ List.range 34,
        getT (to_34_array (string_to_136_array (parse_hand s_in))) t0 < 4 ∧
        sh (incT (to_34_array (string_to_136_array (parse_hand s_in))) t0) = 0) →
      ∀ w ∈ (analyze_hand sh calcFn s_in).waiting_tiles,
        sh (incT (to_34_array (string_to_136_array (parse_hand s_in)))
          w.tile_index) = 0) := by
  have hlen := to_34_array_length (string_to_136_array (parse_hand s_in))
  have hadv := analyze_hand_advance sh calcFn s_in h13 hpos
  refine ⟨?_, ?_, ?_, ?_⟩
  · intro t c str
    rw [hadv]
    exact mem_best_achievers sh _ _ t c str
  · intro t ht h4
    simp only [best_new_shanten]
    exact bsv_le_elem sh _ (List.range 34) _ t ht (by omega)
  · rcases bsv_achieved sh (to_34_array (string_to_136_array (parse_hand s_in)))
      (List.range 34) (sh (to_34_array (string_to_136_array (parse_hand s_in))))
      with hm | ⟨t, ht, hg, he⟩
    · obtain ⟨t, ht, h4⟩ := exists_addable _ hlen h13
      refine ⟨t, ht, h4, ?_⟩
      have h1 := hmono t ht h4
      have h2 := bsv_le_elem sh (to_34_array (string_to_136_array (parse_hand s_in)))
        (List.range 34) (sh (to_34_array (string_to_136_array (parse_hand s_in))))
        t ht (by omega)
      simp only [best_new_shanten]
      omega
    · refine ⟨t, ht, by omega, ?_⟩
      simp only [best_new_shanten]
      exact he
  · intro h1 hstep hex w hw
    rw [hadv] at hw
    have hv := mem_best_achievers_shanten sh _ _ w hw
    obtain ⟨t0, ht0, h40, hv0⟩ := hex
    have hm_le : best_new_shanten sh
        (to_34_array (string_to_136_array (parse_hand s_in))) ≤ 0 := by
      have := bsv_le_elem sh (to_34_array (string_to_136_array (parse_hand s_in)))
        (List.range 34) (sh (to_34_array (string_to_136_array (parse_hand s_in))))
        t0 ht0 (by omega)
      simp only [best_new_shanten]
      omega
    have hm_ge : 0 ≤ best_new_shanten sh
        (to_34_array (string_to_136_array (parse_hand s_in))) := by
      rcases bsv_achieved sh (to_34_array (string_to_136_array (parse_hand s_in)))
        (List.range 34) (sh (to_34_array (string_to_136_array (parse_hand s_in))))
        with hm | ⟨t, ht, hg, he⟩
      · simp only [best_new_shanten]
        omega
      · have := hstep t ht (by omega)
        simp only [best_new_shanten]
        omega
    omega

/-! ## Input-shape error path (C4) -/

/-- C4 (amended): on a hand whose total tile count is neither 13 nor 14,
`analyze_hand` returns a terminal input-shape error — success is false, the
error message names the count, and no win-value, ukeire or waits payload is
produced — but a shanten value has already been computed and sits on the
returned result object; only the serialized dict (`to_dict`) omits it. -/
theorem analyze_hand_bad_count (sh : Counts → Int)
    (calcFn : List Nat → Nat → ExtHandResponse) (s_in : List Char)
    (h13 : count_total (to_34_array (string_to_136_array (parse_hand s_in))) ≠ 13)
    (h14 : count_total (to_34_array (string_to_136_array (parse_hand s_in))) ≠ 14) :
    (analyze_hand sh calcFn s_in).success = false ∧
    (analyze_hand sh calcFn s_in).error =
      some ("手牌数量（" ++
        toString (count_total (to_34_array (string_to_136_array (parse_hand s_in)))) ++
        "）不正确，应为13或14张") ∧
    (analyze_hand sh calcFn s_in).shanten =
      some (calculate_shanten sh (to_34_array (string_to_136_array (parse_hand s_in)))) ∧
    (analyze_hand sh calcFn s_in).hand_value = none ∧
    (analyze_hand sh calcFn s_in).ukeire = none ∧
    (analyze_hand sh calcFn s_in).waiting_tiles = [] ∧
    (to_dict (analyze_hand sh calcFn s_in)).shanten = none := by
  have hbranch : analyze_hand sh calcFn s_in =
      { success := false,
        error := some ("手牌数量（" ++
          toString (count_total (to_34_array (string_to_136_array (parse_hand s_in)))) ++
          "）不正确，应为13或14张"),
        hand_str := s_in,
        total_tiles := count_total (to_34_array (string_to_136_array (parse_hand s_in))),
        hand_components := some (parse_hand s_in),
        shanten := some (calculate_shanten sh (to_34_array (string_to_136_array (parse_hand s_in)))),
        hand_value := none, ukeire := none, waiting_tiles := [] } := by
    simp only [analyze_hand]
    rw [if_neg h14, if_neg h13]
  rw [hbranch]
  refine ⟨rfl, rfl, rfl, rfl, rfl, rfl, ?_⟩
  simp [to_dict]

/-- C4 counterexample: on the 12-tile input `123456789m123p` the analysis
fails terminally, yet the returned result object does carry a computed
shanten value — refuting "no shanten value is computed". -/
theorem analyze_hand_bad_count_cex :
    (analyze_hand sh_chiitoi calc_demo ("123456789m123p".toList)).success = false ∧
    (analyze_hand sh_chiitoi calc_demo ("123456789m123p".toList)).shanten.isSome = true := by
  decide

/-! ## Designated winning tile (C6) -/

theorem analyze_hand_win_branch (sh : Counts → Int)
    (calcFn : List Nat → Nat → ExtHandResponse) (s_in : List Char)
    (h14 : count_total (to_34_array (string_to_136_array (parse_hand s_in))) = 14)
    (hwin : sh (to_34_array (string_to_136_array (parse_hand s_in))) = -1)
    (ty : String) (c : Char)
    (hdes : designated_win_tile (parse_hand s_in) = some (ty, [c])) :
    (analyze_hand sh calcFn s_in).hand_value =
      some (estimate_hand_value calcFn (parse_hand s_in).man (parse_hand s_in).pin
        (parse_hand s_in).sou (parse_hand s_in).honors ty [c]) := by
  simp only [analyze_hand, calculate_shanten]
  rw [h14, hwin, hdes]
  simp

/-- C6 (amended): when a 14-tile hand is complete (shanten −1), the winning
tile handed to the win-value evaluator is the positionally last parsed
character of the first non-empty suit group in the order man, pin, sou,
honors — a deterministic choice, but the last in parse order, not the
lexicographically greatest. -/
theorem analyze_hand_win_tile (sh : Counts → Int)
    (calcFn : List Nat → Nat → ExtHandResponse) (s_in : List Char)
    (h14 : count_total (to_34_array (string_to_136_array (parse_hand s_in))) = 14)
    (hwin : sh (to_34_array (string_to_136_array (parse_hand s_in))) = -1) :
    ∃ (ty : String) (c : Char),
      designated_win_tile (parse_hand s_in) = some (ty, [c]) ∧
      (analyze_hand sh calcFn s_in).hand_value =
        some (estimate_hand_value calcFn (parse_hand s_in).man (parse_hand s_in).pin
          (parse_hand s_in).sou (parse_hand s_in).honors ty [c]) ∧
      (((parse_hand s_in).man ≠ [] ∧ ty = "man" ∧
          (parse_hand s_in).man.getLast? = some c) ∨
       ((parse_hand s_in).man = [] ∧ (parse_hand s_in).pin ≠ [] ∧ ty = "pin" ∧
          (parse_hand s_in).pin.getLast? = some c) ∨
       ((parse_hand s_in).man = [] ∧ (parse_hand s_in).pin = [] ∧
          (parse_hand s_in).sou ≠ [] ∧ ty = "sou" ∧
          (parse_hand s_in).sou.getLast? = some c) ∨
       ((parse_hand s_in).man = [] ∧ (parse_hand s_in).pin = [] ∧
          (parse_hand s_in).sou = [] ∧ (parse_hand s_in).honors ≠ [] ∧
          ty = "honors" ∧ (parse_hand s_in).honors.getLast? = some c)) := by
  have hne : parse_hand s_in ≠ (⟨[], [], [], []⟩ : HandComponents) := by
    intro hc
    rw [hc] at h14
    exact absurd h14 (by decide)
  by_cases hman : (parse_hand s_in).man = []
  · by_cases hpin : (parse_hand s_in).pin = []
    · by_cases hsou : (parse_hand s_in).sou = []
      · by_cases hhon : (parse_hand s_in).honors = []
        · exfalso
          apply hne
          cases hpc : parse_hand s_in with
          | mk m p so ho =>
            rw [hpc] at hman hpin hsou hhon
            simp_all
        · obtain ⟨c, hlast⟩ : ∃ c, (parse_hand s_in).honors.getLast? = some c := by
            cases hl : (parse_hand s_in).honors.getLast? with
            | none => exact absurd (List.getLast?_eq_none_iff.mp hl) hhon
            | some c => exact ⟨c, rfl⟩
          have hdes : designated_win_tile (parse_hand s_in) = some ("honors", [c]) := by
            unfold designated_win_tile
            rw [if_neg (fun h => h hman), if_neg (fun h => h hpin),
              if_neg (fun h => h hsou), if_pos hhon, hlast]
            rfl
          exact ⟨"honors", c, hdes,
            analyze_hand_win_branch sh calcFn s_in h14 hwin _ _ hdes,
            Or.inr (Or.inr (Or.inr ⟨hman, hpin, hsou, hhon, rfl, hlast⟩))⟩
      · obtain ⟨c, hlast⟩ : ∃ c, (parse_hand s_in).sou.getLast? = some c := by
          cases hl : (parse_hand s_in).sou.getLast? with
          | none => exact absurd (List.getLast?_eq_none_iff.mp hl) hsou
          | some c => exact ⟨c, rfl⟩
        have hdes : designated_win_tile (parse_hand s_in) = some ("sou", [c]) := by
          unfold designated_win_tile
          rw [if_neg (fun h => h hman), if_neg (fun h => h hpin),
            if_pos hsou, hlast]
          rfl
        exact ⟨"sou", c, hdes,
          analyze_hand_win_branch sh calcFn s_in h14 hwin _ _ hdes,
          Or.inr (Or.inr (Or.inl ⟨hman, hpin, hsou, rfl, hlast⟩))⟩
    · obtain ⟨c, hlast⟩ : ∃ c, (parse_hand s_in).pin.getLast? = some c := by
        cases hl : (parse_hand s_in).pin.getLast? with
        | none => exact absurd (List.getLast?_eq_none_iff.mp hl) hpin
        | some c => exact ⟨c, rfl⟩
      have hdes : designated_win_tile (parse_hand s_in) = some ("pin", [c]) := by
        unfold designated_win_tile
        rw [if_neg (fun h => h hman), if_pos hpin, hlast]
        rfl
      exact ⟨"pin", c, hdes,
        analyze_hand_win_branch sh calcFn s_in h14 hwin _ _ hdes,
        Or.inr (Or.inl ⟨hman, hpin, rfl, hlast⟩)⟩
  · obtain ⟨c, hlast⟩ : ∃ c, (parse_hand s_in).man.getLast? = some c := by
      cases hl : (parse_hand s_in).man.getLast? with
      | none => exact absurd (List.getLast?_eq_none_iff.mp hl) hman
      | some c => exact ⟨c, rfl⟩
    have hdes : designated_win_tile (parse_hand s_in) = some ("man", [c]) := by
      unfold designated_win_tile
      rw [if_pos hman, hlast]
      rfl
    exact ⟨"man", c, hdes,
      analyze_hand_win_branch sh calcFn s_in h14 hwin _ _ hdes,
      Or.inl ⟨hman, rfl, hlast⟩⟩

/-- C6 counterexample: for the complete hand `321m456p789s11222z` the first
non-empty group parses as `321`; the engine designates its positionally last
digit `1` as the winning tile and passes 1m to the evaluator, while the
lexicographically last parsed tile of that group is `3`. -/
theorem analyze_hand_win_tile_cex :
    designated_win_tile (parse_hand ("321m456p789s11222z".toList)) =
      some ("man", ['1']) ∧
    '3' ∈ (parse_hand ("321m456p789s11222z".toList)).man ∧
    (∀ x ∈ (parse_hand ("321m456p789s11222z".toList)).man, x ≤ '3') ∧
    ('1' : Char) ≠ '3' ∧
    (analyze_hand sh_win calc_demo ("321m456p789s11222z".toList)).hand_value =
      some (estimate_hand_value calc_demo ("321".toList) ("456".toList)
        ("789".toList) ("11222".toList) "man" ['1']) := by
  decide

/-! ## Win-value evaluation of an unscoreable complete hand (C7) -/

/-- C7: when the external scoring calculator reports a non-error response
with zero han and no applicable yaku, `estimate_hand_value` returns
success with han 0, fu and cost passed through, an empty yaku list and no
yakuman flag — not an error result, and no fabricated yaku. -/
theorem estimate_no_yaku (calcFn : List Nat → Nat → ExtHandResponse)
    (tiles_man tiles_pin tiles_sou tiles_honors : List Char)
    (win_tile_type : String) (win_tile_value : List Char)
    (w : Nat) (rest : List Nat)
    (hconv : string_to_136_array (win_components win_tile_type win_tile_value) =
      w :: rest)
    (herr : (calcFn (string_to_136_array
      ⟨tiles_man, tiles_pin, tiles_sou, tiles_honors⟩) w).error = none)
    (hhan : (calcFn (string_to_136_array
      ⟨tiles_man, tiles_pin, tiles_sou, tiles_honors⟩) w).han = 0)
    (hyaku : ((calcFn (string_to_136_array
      ⟨tiles_man, tiles_pin, tiles_sou, tiles_honors⟩) w).yaku).getD [] = []) :
    estimate_hand_value calcFn tiles_man tiles_pin tiles_sou tiles_honors
        win_tile_type win_tile_value =
      { success := true, error := none, han := 0,
        fu := (calcFn (string_to_136_array
          ⟨tiles_man, tiles_pin, tiles_sou, tiles_honors⟩) w).fu,
        cost := (calcFn (string_to_136_array
          ⟨tiles_man, tiles_pin, tiles_sou, tiles_honors⟩) w).cost,
        yaku := [], is_yakuman := false } := by
  unfold estimate_hand_value
  rw [hconv]
  simp [herr, hhan, hyaku]

/-! ## Concrete witnesses -/

/-- Cheap concrete shanten oracle counting only copies of kind 0; used to
evaluate the ukeire search on a concrete hand. -/
def sh_neg0 : Counts → Int := fun a => -(getT a 0 : Int)

/-- Concrete external scoring response reporting a complete but unscoreable
hand: no error, zero han, no yaku. -/
def calc_zero : List Nat → Nat → ExtHandResponse :=
  fun _ _ =>
    { error := none, han := 0, fu := 30, cost := [], yaku := none,
      is_open_hand := false }

theorem ukeire_options_spec_witness :
    List.Pairwise
      (fun x y : UkeireOption =>
        y.ukeire < x.ukeire ∨ x.ukeire = y.ukeire ∧ x.tile_index < y.tile_index)
      (calculate_ukeire sh_chiitoi
        (string_to_136_array (parse_hand ("112233445566m78p".toList)))).options :=
  (ukeire_options_spec sh_chiitoi
    (string_to_136_array (parse_hand ("112233445566m78p".toList)))
    (by decide) (by decide)).2

theorem analyze_hand_waits_spec_witness :
    (⟨6, 3, "7m"⟩ : WaitingTile) ∈
      (analyze_hand sh_chiitoi calc_demo ("1122334455667m".toList)).waiting_tiles :=
  (analyze_hand_waits_spec sh_chiitoi calc_demo ("1122334455667m".toList)
    (by decide) (by decide) 6 3 "7m").mpr (by decide)

theorem analyze_hand_best_advance_spec_witness :
    (⟨5, 3, "6m"⟩ : WaitingTile) ∈
      (analyze_hand sh_chiitoi calc_demo ("112233445567m8p".toList)).waiting_tiles :=
  ((analyze_hand_best_advance_spec sh_chiitoi calc_demo ("112233445567m8p".toList)
    (by decide) (by decide) (by decide)).1 5 3 "6m").mpr (by decide)

theorem analyze_hand_bad_count_witness :
    (to_dict (analyze_hand sh_chiitoi calc_demo ("123456789m123p".toList))).shanten =
      none :=
  (analyze_hand_bad_count sh_chiitoi calc_demo ("123456789m123p".toList)
    (by decide) (by decide)).2.2.2.2.2.2

theorem analyze_hand_win_tile_witness :
    ∃ (ty : String) (c : Char),
      designated_win_tile (parse_hand ("123m456p789s11222z".toList)) =
        some (ty, [c]) ∧
      (analyze_hand sh_win calc_demo ("123m456p789s11222z".toList)).hand_value =
        some (estimate_hand_value calc_demo
          (parse_hand ("123m456p789s11222z".toList)).man
          (parse_hand ("123m456p789s11222z".toList)).pin
          (parse_hand ("123m456p789s11222z".toList)).sou
          (parse_hand ("123m456p789s11222z".toList)).honors ty [c]) ∧
      (((parse_hand ("123m456p789s11222z".toList)).man ≠ [] ∧ ty = "man" ∧
          (parse_hand ("123m456p789s11222z".toList)).man.getLast? = some c) ∨
       ((parse_hand ("123m456p789s11222z".toList)).man = [] ∧
          (parse_hand ("123m456p789s11222z".toList)).pin ≠ [] ∧ ty = "pin" ∧
          (parse_hand ("123m456p789s11222z".toList)).pin.getLast? = some c) ∨
       ((parse_hand ("123m456p789s11222z".toList)).man = [] ∧
          (parse_hand ("123m456p789s11222z".toList)).pin = [] ∧
          (parse_hand ("123m456p789s11222z".toList)).sou ≠ [] ∧ ty = "sou" ∧
          (parse_hand ("123m456p789s11222z".toList)).sou.getLast? = some c) ∨
       ((parse_hand ("123m456p789s11222z".toList)).man = [] ∧
          (parse_hand ("123m456p789s11222z".toList)).pin = [] ∧
          (parse_hand ("123m456p789s11222z".toList)).sou = [] ∧
          (parse_hand ("123m456p789s11222z".toList)).honors ≠ [] ∧
          ty = "honors" ∧
          (parse_hand ("123m456p789s11222z".toList)).honors.getLast? = some c)) :=
  analyze_hand_win_tile sh_win calc_demo ("123m456p789s11222z".toList)
    (by decide) rfl

theorem estimate_no_yaku_witness :
    estimate_hand_value calc_zero ("123456789".toList) [] [] ("11122".toList)
        "man" ['9'] =
      { success := true, error := none, han := 0, fu := 30, cost := [],
        yaku := [], is_yakuman := false } :=
  estimate_no_yaku calc_zero ("123456789".toList) [] [] ("11122".toList)
    "man" ['9'] 32 [] (by decide) rfl rfl rfl

theorem ukeire_wait_ne_discard_witness :
    (WaitingTile.mk 0 3 "1m").tile_index ≠
      (UkeireOption.mk "2m" 1 3 [WaitingTile.mk 0 3 "1m"]).tile_index :=
  ukeire_wait_ne_discard sh_neg0
    [0, 4, 8, 12, 16, 20, 24, 28, 32, 36, 40, 44, 48, 52]
    (UkeireOption.mk "2m" 1 3 [WaitingTile.mk 0 3 "1m"]) (by decide)
    (WaitingTile.mk 0 3 "1m") (by decide)

end Majsoul
